import Mathlib

/-!
# preact-cli `create` command: template materialisation

A shallow embedding of `src/commands/create.js`.  JavaScript strings are
sequences of UTF-16 code units; every regular expression of the file is
translated by hand into a matcher over code units, and the asynchronous
handler becomes a function that threads the file system through the run
and records an ordered trace of the effects it performs.
-/

set_option autoImplicit false

namespace create

/-! ## Strings -/

/-- A JavaScript string: its UTF-16 code units, in order.  `s.length` is the
JavaScript `length` of the string. -/
abbrev JSString := List Nat

/-- The code units of a source literal (every literal of the file is ASCII). -/
def lit (s : String) : JSString := s.toList.map Char.toNat

/-- `hay.includes(needle)`: the needle occurs at some offset of the haystack. -/
def includes : JSString → JSString → Bool
  | [], needle => needle.isPrefixOf []
  | c :: hay, needle => needle.isPrefixOf (c :: hay) || includes hay needle

/-- `LineTerminator` of ECMAScript: the code units `.` refuses to match. -/
def isLineTerminator (c : Nat) : Bool :=
  c == 0x000A || c == 0x000D || c == 0x2028 || c == 0x2029

/-- The class `\s` of ECMAScript: `WhiteSpace` together with `LineTerminator`. -/
def isSpace (c : Nat) : Bool :=
  c == 0x0009 || c == 0x000B || c == 0x000C || c == 0x0020 || c == 0x00A0 ||
  c == 0x1680 || (0x2000 ≤ c && c ≤ 0x200A) || c == 0x202F || c == 0x205F ||
  c == 0x3000 || c == 0xFEFF || isLineTerminator c

/-! ## Line 13 to 15: `ORG`, `RGX`, `isMedia` -/

/-- `const ORG = 'preactjs-templates'`. -/
def ORG : JSString := lit "preactjs-templates"

/-- One pattern character of `RGX` against one code unit under the `i` flag
(no `u` flag): both sides are canonicalised with the simple upper-case mapping,
which never maps a non-ASCII unit onto an ASCII one, so an ASCII lower-case
letter of the pattern accepts exactly itself and its upper-case form, and a
digit accepts itself. -/
def eqIgnoreCase (p c : Nat) : Bool :=
  c == p || (97 ≤ p && p ≤ 122 && c + 32 == p)

/-- A literal run of pattern characters under the `i` flag, anchored at the head
of the input: the rest of the input after the run. -/
def dropIgnoreCase : JSString → JSString → Option JSString
  | [], s => some s
  | _ :: _, [] => none
  | p :: ps, c :: s => if eqIgnoreCase p c then dropIgnoreCase ps s else none

/-- The alternatives of the group `(woff2?|ttf|eot|jpe?g|ico|png|gif|mp4|mov|ogg|webm)`,
with the two optional characters spelled out. -/
def extensions : List JSString :=
  [lit "woff2", lit "woff", lit "ttf", lit "eot", lit "jpeg", lit "jpg", lit "ico",
   lit "png", lit "gif", lit "mp4", lit "mov", lit "ogg", lit "webm"]

/-- The tail `(\?.*)?$` of `RGX`: the input ends here, or a `?` follows and
everything up to the end of the input is matched by `.*`, which stops at a
line terminator. -/
def queryTail : JSString → Bool
  | [] => true
  | c :: q => c == 63 && q.all (fun d => !isLineTerminator d)

/-- `RGX` anchored at the head of the input: `\.`, one extension, the tail. -/
def rgxHere : JSString → Bool
  | [] => false
  | c :: s => c == 46 && extensions.any (fun e =>
      match dropIgnoreCase e s with
      | some r => queryTail r
      | none => false)

/-- `isMedia = str => RGX.test(str)`: `RGX` matches at some offset. -/
def isMedia : JSString → Bool
  | [] => rgxHere []
  | c :: s => rgxHere (c :: s) || isMedia s

/-! ## Line 88 to 92: the repository reference -/

/-- The `repo` of the handler: the template itself when it has a `/`, else
the template under `ORG`. -/
def resolveRepo (template : JSString) : JSString :=
  if !includes template (lit "/") then ORG ++ lit "/" ++ template else template

/-! ## Line 116 to 129: the extraction filter -/

/-- A tar entry as the filter of `gittar.extract` sees it: `path` is the first
argument of `filter`; `objPath`, `type` and `absolute` are `obj.path`,
`obj.type` and `obj.absolute` when the entry's `end` event fires. -/
structure Entry where
  path : JSString
  objPath : JSString
  type : JSString
  absolute : JSString

/-- The `filter` callback: whether the entry is extracted. -/
def filterAccepts (e : Entry) : Bool := includes e.path (lit "/template/")

/-- The `end` listener registered by the filter: pushes onto `keeps`. -/
def onEnd (keeps : List JSString) (e : Entry) : List JSString :=
  if e.type == lit "File" && !isMedia e.objPath then keeps ++ [e.absolute] else keeps

/-- The value of `keeps` once `gittar.extract` has visited the entries in order,
starting from `let keeps=[]`. -/
def extractKeeps (entries : List Entry) : List JSString :=
  entries.foldl (fun keeps e => if filterAccepts e then onEnd keeps e else keeps) []

/-! ## Line 131 to 149: placeholder substitution -/

/-- `GetSubstitution` of ECMAScript for a pattern without capture groups: in the
replacement text `$$` stands for `$`, `$&` for the match, `$` followed by a
back-tick for the text before the match and `$'` for the text after it; every
other code unit, a lone `$` included, stands for itself. -/
def getSubstitution (matched before after : JSString) : JSString → JSString
  | [] => []
  | [c] => [c]
  | c :: d :: r =>
    if c == 36 && d == 36 then 36 :: getSubstitution matched before after r
    else if c == 36 && d == 38 then matched ++ getSubstitution matched before after r
    else if c == 36 && d == 96 then before ++ getSubstitution matched before after r
    else if c == 36 && d == 39 then after ++ getSubstitution matched before after r
    else c :: getSubstitution matched before after (d :: r)

/-- The loop of `String.prototype.replace` for a pattern with the `g` flag.
`m` gives the length of the match anchored at the head of its input, if there
is one; `skip` counts the code units of the current match still to be passed
over.  An empty match inserts the replacement and moves on by one unit. -/
def replaceFrom (m : JSString → Option Nat) (v whole : JSString) : Nat → JSString → JSString
  | _, [] =>
    match m [] with
    | some _ => getSubstitution [] whole [] v
    | none => []
  | skip + 1, _ :: s => replaceFrom m v whole skip s
  | 0, c :: s =>
    let before := whole.take (whole.length - (c :: s).length)
    match m (c :: s) with
    | some 0 => getSubstitution [] before (c :: s) v ++ c :: replaceFrom m v whole 0 s
    | some (n + 1) =>
      getSubstitution ((c :: s).take (n + 1)) before ((c :: s).drop (n + 1)) v ++
        replaceFrom m v whole n s
    | none => c :: replaceFrom m v whole 0 s

/-- `buf.replace(k, v)` for a `g` pattern `k` with anchored matcher `m`. -/
def replaceAll (m : JSString → Option Nat) (v buf : JSString) : JSString :=
  replaceFrom m v buf 0 buf

/-- A literal run of the pattern, anchored at the head: the rest of the input. -/
def dropLit : JSString → JSString → Option JSString
  | [], s => some s
  | _ :: _, [] => none
  | p :: ps, c :: s => if c == p then dropLit ps s else none

/-- One `\s`, anchored at the head: the rest of the input. -/
def dropSpace : JSString → Option JSString
  | [] => none
  | c :: s => if isSpace c then some s else none

/-- The part `name\s}}` of the token pattern: the key, exactly one `\s`, the
closing braces. -/
def tokenTail (s : JSString) : Option JSString :=
  (dropLit (lit "name") s).bind fun s1 => (dropSpace s1).bind fun s2 => dropLit (lit "\x7d\x7d") s2

/-- The pattern built for the key `name`, a RegExp with source `{{\s?name\s}}`,
anchored at the head of the input.  `\s?` is greedy: one `\s` is tried first,
then none.  The result is the length of the match. -/
def tokenHere (s : JSString) : Option Nat :=
  ((dropLit (lit "\x7b\x7b") s).bind fun r =>
    match (dropSpace r).bind tokenTail with
    | some rest => some rest
    | none => tokenTail r).map fun rest => s.length - rest.length

/-- The body of the loop over `keeps` for one file: every entry of `dict`, which
holds the pattern of the key `name` with the application name as its value, is
applied to the content in turn. -/
def substitute (name buf : JSString) : JSString :=
  [(tokenHere, name)].foldl (fun b kv => replaceAll kv.1 kv.2 b) buf

/-! ## Line 167 to 171: the package name -/

/-- The pattern `\s+` anchored at the head of the input: the length of the
longest run of `\s`, when it is not empty. -/
def spaceRun (s : JSString) : Option Nat :=
  match (s.takeWhile isSpace).length with
  | 0 => none
  | n + 1 => some (n + 1)

/-- The expression `argv.name.toLowerCase().replace(/\s+/g, '_')`; the case
mapping of the engine is `toLowerCase`. -/
def packageName (toLowerCase : JSString → JSString) (name : JSString) : JSString :=
  replaceAll spaceRun (lit "_") (toLowerCase name)

/-! ## JSON documents -/

/-- A value produced by `JSON.parse`.  A number is kept as the sign, mantissa and
binary exponent of its double, so that it is zero exactly when the mantissa is;
an object keeps its properties in enumeration order. -/
inductive Json where
  | null
  | bool (b : Bool)
  | num (negative : Bool) (mantissa : Nat) (exponent : Int)
  | str (s : JSString)
  | arr (items : List Json)
  | obj (props : List (JSString × Json))

/-- `ToBoolean` on a parsed value: `null`, `false`, `0`, `-0` and `""` are falsy. -/
def Json.truthy : Json → Bool
  | .null => false
  | .bool b => b
  | .num _ m _ => m != 0
  | .str s => !s.isEmpty
  | .arr _ => true
  | .obj _ => true

/-- `ToBoolean` on a value that may be `undefined`. -/
def truthy? : Option Json → Bool
  | none => false
  | some v => v.truthy

/-- `ToBoolean` on a string that may be `undefined`. -/
def nonEmpty? : Option JSString → Bool
  | some (_ :: _) => true
  | _ => false

/-- Reading the own property `k` of an object; `none` is `undefined`. -/
def getProp (k : JSString) : List (JSString × Json) → Option Json
  | [] => none
  | (k1, v1) :: rest => if k1 == k then some v1 else getProp k rest

/-- Writing the property `k` of an object: an existing property keeps its place,
a new one goes last (`k` is never an array index here). -/
def setProp (k : JSString) (v : Json) : List (JSString × Json) → List (JSString × Json)
  | [] => [(k, v)]
  | (k1, v1) :: rest => if k1 == k then (k, v) :: rest else (k1, v1) :: setProp k v rest

/-! ## Effects and outcomes -/

/-- What the handler does to the outside, in the order it does it. -/
inductive Effect where
  | warn (text : JSString)
  | info (text : JSString)
  | prompt
  | confirm
  | error (text : JSString) (code : Nat)
  | fetch (repo : JSString)
  | spinnerStart
  | spinnerText (text : JSString)
  | spinnerSucceed
  | extract (target : JSString)
  | readFile (path : JSString)
  | writeFile (path data : JSString)
  | addScripts (target : JSString) (isYarn : Bool)
  | glob (pattern : JSString)
  | stdout (text : JSString)
  | install (target : JSString) (isYarn : Bool)
  | initGit (target : JSString)
  deriving DecidableEq

/-- Why the promise of the handler is rejected. -/
inductive Reject where
  | typeError
  | syntaxError
  | noEntry (path : JSString)
  | installFailed
  | initGitFailed
  deriving DecidableEq

/-- How a run stops short of its `return` at the end of the handler. -/
inductive Halt where
  | exit (text : JSString) (code : Nat)
  | rejected (why : Reject)
  deriving DecidableEq

/-- A piece of the handler: the effects it performed and either its value or
the reason the run stopped inside it. -/
structure Step (α : Type) where
  trace : List Effect
  result : Except Halt α

namespace Step

/-- A piece that only yields a value. -/
def ret {α : Type} (a : α) : Step α := ⟨[], .ok a⟩

/-- A piece that only performs effects. -/
def emit (es : List Effect) : Step Unit := ⟨es, .ok ()⟩

/-- A `throw`. -/
def reject {α : Type} (why : Reject) : Step α := ⟨[], .error (.rejected why)⟩

/-- Sequencing: the second piece runs only when the first one yields a value. -/
def andThen {α β : Type} (s : Step α) (f : α → Step β) : Step β :=
  match s.result with
  | .error h => ⟨s.trace, .error h⟩
  | .ok a => ⟨s.trace ++ (f a).trace, (f a).result⟩

end Step

/-- Modelled from the spec: `error(text, code)` of `../util`, which is not among
the sources.  Every fatal condition halts the pipeline at the point of detection
and surfaces a single message plus the process exit code: the call reports
`text` and ends the process with status `code`. -/
def error {α : Type} (text : JSString) (code : Nat) : Step α :=
  ⟨[.error text code], .error (.exit text code)⟩

/-! ## The environment of a run -/

/-- The files under the target: the text at a path, if a file is there. -/
abbrev FS := JSString → Option JSString

/-- The file system after `fs.writeFile(path, data)`. -/
def FS.write (fs : FS) (path data : JSString) : FS :=
  fun p => if p = path then some data else fs p

/-- The `code` of a rejection of `gittar.fetch`: an HTTP status or a system
error name. -/
inductive Code where
  | status (n : Nat)
  | errno (s : JSString)
  deriving DecidableEq

/-- The object `gittar.fetch` rejects with. -/
structure FetchError where
  code : Option Code
  message : JSString

/-- A fetched archive: its entries in order, and the files readable once it is
extracted into the target. -/
structure Archive where
  entries : List Entry
  disk : FS

/-- The `argv` object of the command. -/
structure Argv where
  template : Option JSString
  dest : Option JSString
  cwd : JSString
  name : Option JSString
  force : Bool
  yarn : Bool
  git : Bool
  install : Bool

/-- Everything the handler calls that lives outside `create.js`: the user at the
prompt, `path`, `../util`, `../lib/setup`, the string and JSON built-ins,
`validate-npm-package-name`, `gittar` and `glob`. -/
structure World where
  /-- The `argv` after `Object.assign(argv, await prompt(isMissing(argv)))`. -/
  answers : Argv → Argv
  /-- The answer to the `enableForce` confirmation. -/
  enableForce : Bool
  /-- The call `path.resolve(...segments)`. -/
  resolve : List JSString → JSString
  /-- An absolute path, which `path.resolve` always yields, is not the empty string. -/
  resolve_ne : ∀ segs, resolve segs ≠ []
  /-- The call `path.dirname(p)`. -/
  dirname : JSString → JSString
  /-- The helper `isDir` of `../util`. -/
  isDir : JSString → Bool
  /-- The helper `hasCommand` of `../util`. -/
  hasCommand : JSString → Bool
  /-- The built-in `String.prototype.toUpperCase`. -/
  toUpperCase : JSString → JSString
  /-- The built-in `String.prototype.toLowerCase`. -/
  toLowerCase : JSString → JSString
  /-- No lower-case mapping yields one of the letters `A` to `Z`. -/
  toLowerCase_lower : ∀ s, ∀ c ∈ toLowerCase s, ¬ (65 ≤ c ∧ c ≤ 90)
  /-- The `errors` of `validate-npm-package-name`; `none` is `undefined`. -/
  isValidName : JSString → Option (List JSString)
  /-- The call `gittar.fetch(repo)`; a rejection carries the error object, if any. -/
  fetch : JSString → Except (Option FetchError) Archive
  /-- The built-in `JSON.parse`; `none` is a `SyntaxError`. -/
  parse : JSString → Option Json
  /-- The call `JSON.stringify(value, null, 2)`. -/
  stringify : Json → JSString
  /-- The helper `addScripts` of `../lib/setup`. -/
  addScripts : Json → JSString → Bool → Json
  /-- The promisified `glob`. -/
  glob : JSString → List JSString
  /-- Whether `install` of `../lib/setup` resolves. -/
  install : JSString → Bool → Bool
  /-- Whether `initGit` of `../lib/setup` resolves. -/
  initGit : JSString → Bool

/-- The locals of the handler that outlive line 101. -/
structure Locals where
  name : JSString
  dest : JSString
  target : JSString
  repo : JSString
  isYarn : Bool
  install : Bool
  git : Bool

/-! ## Line 52 to 101: arguments, target directory, application name -/

/-- `const capitalize = str => str.charAt(0).toUpperCase() + str.substring(1)`. -/
def capitalize (toUpperCase : JSString → JSString) (str : JSString) : JSString :=
  toUpperCase (str.take 1) ++ str.drop 1

/-- `lines.join(sep)`. -/
def join (sep : JSString) : List JSString → JSString
  | [] => []
  | [x] => x
  | x :: y :: rest => x ++ sep ++ join sep (y :: rest)

/-- The text handed to `error` when the validator returns `errors`: the header
is put in front of the violations, each line is capitalised, and the lines are
joined. -/
def invalidNameText (toUpperCase : JSString → JSString) (name : JSString)
    (errors : List JSString) : JSString :=
  join (lit "\n  ~ ") (((lit "Invalid package name: " ++ name) :: errors).map (capitalize toUpperCase))

/-- Whether line 54 finds the arguments incomplete. -/
def incomplete (argv : Argv) : Bool := !nonEmpty? argv.dest || !nonEmpty? argv.template

/-- The `argv` the handler works with from line 63 on. -/
def prompted (w : World) (argv : Argv) : Argv :=
  if incomplete argv then w.answers argv else argv

/-- The `argv.dest` of line 64, from the prompted `argv`. -/
def destOf (w : World) (argv : Argv) : JSString :=
  if nonEmpty? argv.dest then argv.dest.getD [] else w.dirname (w.resolve [argv.cwd])

/-- The `target` of line 66, from the prompted `argv`. -/
def targetOf (w : World) (argv : Argv) : JSString :=
  w.resolve [w.resolve [argv.cwd], destOf w argv]

/-- The `argv.name` of line 95, from the prompted `argv`. -/
def nameOf (w : World) (argv : Argv) : JSString :=
  if nonEmpty? argv.name then argv.name.getD [] else destOf w argv

/-- Lines 54 to 61: the prompt for missing arguments. -/
def askMissing (argv : Argv) : Step Unit :=
  if incomplete argv then
    Step.emit [.warn (lit "Insufficient command arguments! Prompting..."),
      .info (lit "Alternatively, run `preact create --help` for usage info."), .prompt]
  else Step.ret ()

/-- Lines 63 to 86: the target must not exist, unless `--force` is given and
confirmed at the prompt. -/
def checkTarget (w : World) (argv : Argv) : Step Unit :=
  let found := w.isDir (targetOf w argv)
  if found && !argv.force then
    error (lit "Refusing to overwrite current directory! Please specify a different destination or use the `--force` flag") 1
  else if found && argv.force then
    (Step.emit [.confirm]).andThen fun _ =>
      if w.enableForce then Step.emit [.info (lit "Initializing project in the current directory!")]
      else error (lit "Refusing to overwrite current directory!") 1
  else Step.ret ()

/-- Lines 88 to 92: the repository reference; `repo.includes` throws when the
template is still `undefined`. -/
def chooseRepo (argv : Argv) : Step JSString :=
  match argv.template with
  | none => Step.reject .typeError
  | some template =>
    if !includes template (lit "/") then
      ⟨[.info (lit "Assuming you meant " ++ resolveRepo template ++ lit "...")], .ok (resolveRepo template)⟩
    else Step.ret (resolveRepo template)

/-- Lines 94 to 101: the application name and its validation. -/
def checkName (w : World) (argv : Argv) : Step JSString :=
  match w.isValidName (nameOf w argv) with
  | some errors => error (invalidNameText w.toUpperCase (nameOf w argv) errors) 1
  | none => Step.ret (nameOf w argv)

/-- Lines 52 to 101 of the handler. -/
def beforeFetch (w : World) (argv : Argv) : Step Locals :=
  (askMissing argv).andThen fun _ =>
  (checkTarget w (prompted w argv)).andThen fun _ =>
  (chooseRepo (prompted w argv)).andThen fun repo =>
  (checkName w (prompted w argv)).andThen fun name =>
  Step.ret {
    name := name
    dest := destOf w (prompted w argv)
    target := targetOf w (prompted w argv)
    repo := repo
    isYarn := (prompted w argv).yarn && w.hasCommand (lit "yarn")
    install := (prompted w argv).install
    git := (prompted w argv).git }

/-! ## Line 103 to 152: fetch, extraction, substitution -/

/-- The text handed to `error` by the `catch` of `gittar.fetch`. -/
def fetchErrorText (repo : JSString) (err : Option FetchError) : JSString :=
  let err := err.getD { code := none, message := lit "An error occured while fetching template." }
  if err.code = some (.status 404) then lit "Could not find repository: " ++ repo else err.message

/-- Lines 103 to 107: the fetch of the archive. -/
def fetchArchive (w : World) (repo : JSString) : Step Archive :=
  (Step.emit [.fetch repo]).andThen fun _ =>
    match w.fetch repo with
    | .error err => error (fetchErrorText repo err) 1
    | .ok archive => Step.ret archive

/-- `await fs.readFile(path)`: throws when no file is there. -/
def readFile (fs : FS) (path : JSString) : Step JSString :=
  ⟨[.readFile path], match fs path with
    | some data => .ok data
    | none => .error (.rejected (.noEntry path))⟩

/-- Lines 143 to 149: the loop over `keeps`; each file is read, rewritten and
written back before the next one is read. -/
def substituteKeeps (name : JSString) : List JSString → FS → Step FS
  | [], fs => Step.ret fs
  | entry :: rest, fs =>
    (readFile fs entry).andThen fun buf =>
    (Step.emit [.writeFile entry (substitute name buf)]).andThen fun _ =>
    substituteKeeps name rest (fs.write entry (substitute name buf))

/-- Lines 109 to 152: extraction into the target, then substitution when
something was kept and the fatal error otherwise. -/
def extractAndSubstitute (l : Locals) (archive : Archive) : Step FS :=
  (Step.emit [.spinnerStart, .extract l.target]).andThen fun _ =>
    if (extractKeeps archive.entries).length != 0 then
      substituteKeeps l.name (extractKeeps archive.entries) archive.disk
    else error (lit "No `template` directory found within " ++ l.repo ++ lit "!") 1

/-! ## Line 154 to 190: the two manifests -/

/-- `JSON.parse(text)`. -/
def parseJson (w : World) (text : JSString) : Step Json :=
  match w.parse text with
  | some doc => Step.ret doc
  | none => Step.reject .syntaxError

/-- The read `pkgData.scripts`: a `TypeError` on `null`, the own property on an
object, `undefined` on anything else. -/
def readScripts : Json → Step (Option Json)
  | .null => Step.reject .typeError
  | .obj props => Step.ret (getProp (lit "scripts") props)
  | _ => Step.ret none

/-- The assignment `doc[k] = v` for one of the keys `scripts`, `name` and
`short_name`, in strict mode: an object takes the property, an array takes it
out of sight of `JSON.stringify`, and a primitive throws a `TypeError`. -/
def assign (doc : Json) (k : JSString) (v : Json) : Step Json :=
  match doc with
  | .obj props => Step.ret (.obj (setProp k v props))
  | .arr items => Step.ret (.arr items)
  | _ => Step.reject .typeError

/-- Line 162: `pkgData.scripts = pkgData.scripts || (await addScripts(pkgData, target, isYarn))`. -/
def defaultScripts (w : World) (l : Locals) (pkgData : Json) : Step Json :=
  (readScripts pkgData).andThen fun scripts =>
    if truthy? scripts then assign pkgData (lit "scripts") (scripts.getD .null)
    else
      (Step.emit [.addScripts l.target l.isYarn]).andThen fun _ =>
      assign pkgData (lit "scripts") (w.addScripts pkgData l.target l.isYarn)

/-- Lines 157 to 165: `pkgData` is loaded when `pkgFile` is truthy, and stays
`undefined` after a warning otherwise. -/
def loadPackage (w : World) (l : Locals) (fs : FS) : Step (Option Json) :=
  let pkgFile := w.resolve [l.target, lit "package.json"]
  if nonEmpty? (some pkgFile) then
    (readFile fs pkgFile).andThen fun text =>
    (parseJson w text).andThen fun pkgData =>
    (defaultScripts w l pkgData).andThen fun pkgData =>
    Step.ret (some pkgData)
  else
    (Step.emit [.warn (lit "Could not locate `package.json` file!")]).andThen fun _ =>
    Step.ret none

/-- The name written into `package.json`. -/
def normalizedName (w : World) (l : Locals) : JSString := packageName w.toLowerCase l.name

/-- Lines 167 to 171: the `name` of a loaded `pkgData`. -/
def renamePackage (w : World) (l : Locals) (pkgData : Option Json) : Step (Option Json) :=
  if truthy? pkgData then
    (Step.emit [.spinnerText (lit "Updating `name` within `package.json` file")]).andThen fun _ =>
    (assign (pkgData.getD .null) (lit "name") (.str (normalizedName w l))).andThen fun doc =>
    Step.ret (some doc)
  else Step.ret pkgData

/-- Lines 176 to 184: the rewrite of a truthy `manifest`. -/
def rewriteManifest (w : World) (l : Locals) (file : JSString) (manifest : Json) : Step Unit :=
  (Step.emit [.spinnerText (lit "Updating `name` within `manifest.json` file")]).andThen fun _ =>
  (assign manifest (lit "short_name") (.str l.name)).andThen fun m1 =>
  (assign m1 (lit "name") (.str l.name)).andThen fun m2 =>
  (Step.emit [.writeFile file (w.stringify m2)]).andThen fun _ =>
  if l.name.length > 12 then
    Step.emit [.stdout (lit "\n"), .warn (lit "Your `short_name` should be fewer than 12 characters.")]
  else Step.ret ()

/-- Lines 172 to 185: the first `manifest.json` under the target, if any. -/
def patchManifest (w : World) (l : Locals) (fs : FS) : Step Unit :=
  (Step.emit [.glob (l.target ++ lit "/**/manifest.json")]).andThen fun _ =>
    match (w.glob (l.target ++ lit "/**/manifest.json")).head? with
    | none => Step.ret ()
    | some file =>
      if nonEmpty? (some file) then
        (readFile fs file).andThen fun text =>
        (parseJson w text).andThen fun manifest =>
        if manifest.truthy then rewriteManifest w l file manifest else Step.ret ()
      else Step.ret ()

/-- Lines 187 to 190: `package.json` is written when `pkgData` is truthy. -/
def writePackage (w : World) (l : Locals) (pkgData : Option Json) : Step Unit :=
  if truthy? pkgData then
    Step.emit [.writeFile (w.resolve [l.target, lit "package.json"]) (w.stringify (pkgData.getD .null))]
  else Step.ret ()

/-- Lines 154 to 190 of the handler. -/
def patchManifests (w : World) (l : Locals) (fs : FS) : Step Unit :=
  (Step.emit [.spinnerText (lit "Parsing `package.json` file")]).andThen fun _ =>
  (loadPackage w l fs).andThen fun loaded =>
  (renamePackage w l loaded).andThen fun pkgData =>
  (patchManifest w l fs).andThen fun _ =>
  writePackage w l pkgData

/-! ## Line 192 to 216: installation, git, the closing message -/

/-- Lines 192 to 195. -/
def installStep (w : World) (l : Locals) : Step Unit :=
  if l.install then
    ⟨[.spinnerText (lit "Installing dependencies"), .install l.target l.isYarn],
      if w.install l.target l.isYarn then .ok () else .error (.rejected .installFailed)⟩
  else Step.ret ()

/-- Lines 199 to 201. -/
def gitStep (w : World) (l : Locals) : Step Unit :=
  if l.git then
    ⟨[.initGit l.target], if w.initGit l.target then .ok () else .error (.rejected .initGitFailed)⟩
  else Step.ret ()

/-- What the closing message is made of: the command prefix and `argv.dest`. -/
structure NextSteps where
  pfx : JSString
  dest : JSString

/-- Lines 192 to 216 of the handler. -/
def finish (w : World) (l : Locals) : Step NextSteps :=
  (installStep w l).andThen fun _ =>
  (Step.emit [.spinnerSucceed]).andThen fun _ =>
  (gitStep w l).andThen fun _ =>
  Step.ret { pfx := if l.isYarn then lit "yarn" else lit "npm run", dest := l.dest }

/-! ## The handler -/

/-- The `handler` of the `create` command. -/
def handler (w : World) (argv : Argv) : Step NextSteps :=
  (beforeFetch w argv).andThen fun l =>
  (fetchArchive w l.repo).andThen fun archive =>
  (extractAndSubstitute l archive).andThen fun fs =>
  (patchManifests w l fs).andThen fun _ =>
  finish w l

/-! ## What a trace contains -/

/-- An archive fetch. -/
def Effect.isFetch : Effect → Bool
  | .fetch _ => true
  | _ => false

/-- An extraction of the archive into the target. -/
def Effect.isExtract : Effect → Bool
  | .extract _ => true
  | _ => false

/-- Before the fetch the handler only talks: it warns, informs, prompts, asks
for confirmation or reports an error. -/
def Effect.isTalk : Effect → Bool
  | .warn _ => true
  | .info _ => true
  | .prompt => true
  | .confirm => true
  | .error _ _ => true
  | _ => false

/-- A read or a write of a file by the handler itself. -/
def Effect.isFileAccess : Effect → Bool
  | .readFile _ => true
  | .writeFile _ _ => true
  | _ => false

/-- A dependency installation or a git initialisation. -/
def Effect.isInstallOrGit : Effect → Bool
  | .install _ _ => true
  | .initGit _ => true
  | _ => false

/-! ## The claims' vocabulary -/

/-- The ASCII lower-case form of a code unit. -/
def asciiLower (c : Nat) : Nat := if 65 ≤ c ∧ c ≤ 90 then c + 32 else c

/-- The ASCII upper-case form of a code unit. -/
def asciiUpper (c : Nat) : Nat := if 97 ≤ c ∧ c ≤ 122 then c - 32 else c

/-- The media suffixes as the specification lists them. -/
def mediaSuffixes : List JSString :=
  [lit ".woff", lit ".woff2", lit ".ttf", lit ".eot", lit ".jpg", lit ".jpeg", lit ".ico",
   lit ".png", lit ".gif", lit ".mp4", lit ".mov", lit ".ogg", lit ".webm"]

/-- A media path in the specification's words: the path ends in one of the media
suffixes, compared without regard to case, optionally followed by `?` and a
query string (which, being matched by `.*`, holds no line terminator). -/
def IsMediaPath (s : JSString) : Prop :=
  ∃ pre suffix query, s = pre ++ suffix ++ query ∧ suffix.map asciiLower ∈ mediaSuffixes ∧
    (query = [] ∨ ∃ q, query = 63 :: q ∧ ∀ d ∈ q, isLineTerminator d = false)

/-- The target exists and the override is not both requested and confirmed. -/
def TargetRefused (w : World) (argv : Argv) : Prop :=
  w.isDir (targetOf w (prompted w argv)) = true ∧
    ¬ ((prompted w argv).force = true ∧ w.enableForce = true)

/-- The run gets as far as the validator, which returns `errors` for the name. -/
def NameRefused (w : World) (argv : Argv) (errors : List JSString) : Prop :=
  ¬ TargetRefused w argv ∧ (prompted w argv).template ≠ none ∧
    w.isValidName (nameOf w (prompted w argv)) = some errors

/-- The object written to `package.json` for a parsed object with properties
`props`: line 162 settles `scripts`, line 170 sets `name`. -/
def patchedPackage (w : World) (l : Locals) (props : List (JSString × Json)) :
    List (JSString × Json) :=
  setProp (lit "name") (.str (normalizedName w l))
    (setProp (lit "scripts")
      (if truthy? (getProp (lit "scripts") props) then (getProp (lit "scripts") props).getD .null
        else w.addScripts (.obj props) l.target l.isYarn)
      props)

/-- The object written to `manifest.json` for a parsed object with properties
`props`: line 177 sets `short_name`, then `name`. -/
def patchedManifest (l : Locals) (props : List (JSString × Json)) : List (JSString × Json) :=
  setProp (lit "name") (.str l.name) (setProp (lit "short_name") (.str l.name) props)

/-! ## A sample environment -/

/-- A stand-in for `path.resolve`. -/
def sampleResolve : List JSString → JSString
  | [base, seg] => base ++ lit "/" ++ seg
  | _ => lit "/home"

/-- The scripts the sample provider returns. -/
def sampleScripts : Json :=
  .obj [(lit "start", .str (lit "preact watch")), (lit "build", .str (lit "preact build"))]

/-- The `package.json` of the sample template, as text. -/
def samplePackageText : JSString := lit "\x7b \"name\": \"\x7b\x7b name \x7d\x7d\" \x7d"

/-- The `manifest.json` of the sample template, as text. -/
def sampleManifestText : JSString := lit "\x7b \"short_name\": \"\x7b\x7bname\x7d\x7d\" \x7d"

/-- The files of the sample templates once extracted into `/home/app`. -/
def sampleDisk (withPackage : Bool) : FS := fun p =>
  if p = lit "/home/app/src/index.js" then some (lit "render('\x7b\x7b name \x7d\x7d');")
  else if p = lit "/home/app/src/manifest.json" then some sampleManifestText
  else if p = lit "/home/app/package.json" ∧ withPackage = true then some samplePackageText
  else none

/-- The entries of the sample template `default`. -/
def sampleEntries : List Entry :=
  [ { path := lit "default-master/README.md", objPath := lit "README.md",
      type := lit "File", absolute := lit "/home/app/README.md" },
    { path := lit "default-master/template/src/", objPath := lit "src/",
      type := lit "Directory", absolute := lit "/home/app/src" },
    { path := lit "default-master/template/package.json", objPath := lit "package.json",
      type := lit "File", absolute := lit "/home/app/package.json" },
    { path := lit "default-master/template/src/index.js", objPath := lit "src/index.js",
      type := lit "File", absolute := lit "/home/app/src/index.js" },
    { path := lit "default-master/template/src/icon.PNG", objPath := lit "src/icon.PNG",
      type := lit "File", absolute := lit "/home/app/src/icon.PNG" },
    { path := lit "default-master/template/src/manifest.json", objPath := lit "src/manifest.json",
      type := lit "File", absolute := lit "/home/app/src/manifest.json" } ]

/-- The entries of the sample template `bare`: a template without `package.json`. -/
def bareEntries : List Entry :=
  [ { path := lit "bare-master/template/src/index.js", objPath := lit "src/index.js",
      type := lit "File", absolute := lit "/home/app/src/index.js" } ]

/-- The entries of the sample repository `empty`: nothing under `template/`. -/
def emptyEntries : List Entry :=
  [ { path := lit "empty-master/README.md", objPath := lit "README.md",
      type := lit "File", absolute := lit "/home/app/README.md" } ]

/-- A stand-in for `gittar.fetch`: three repositories exist. -/
def sampleFetch (repo : JSString) : Except (Option FetchError) Archive :=
  if repo = lit "preactjs-templates/default" then .ok ⟨sampleEntries, sampleDisk true⟩
  else if repo = lit "preactjs-templates/bare" then .ok ⟨bareEntries, sampleDisk false⟩
  else if repo = lit "preactjs-templates/empty" then .ok ⟨emptyEntries, sampleDisk false⟩
  else .error (some { code := some (.status 404), message := lit "Not Found" })

/-- A stand-in for `JSON.parse` that knows the two sample manifests once the
name `app` has been substituted. -/
def sampleParse (text : JSString) : Option Json :=
  if text = lit "\x7b \"name\": \"app\" \x7d" then some (.obj [(lit "name", .str (lit "app"))])
  else if text = sampleManifestText then
    some (.obj [(lit "short_name", .str (lit "\x7b\x7bname\x7d\x7d"))])
  else none

/-- A stand-in for `JSON.stringify`: the string properties of an object. -/
def sampleStringify : Json → JSString
  | .obj props => lit "\x7b" ++ join (lit ",") (props.map fun kv =>
      match kv.2 with
      | .str v => kv.1 ++ lit ":" ++ v
      | _ => kv.1) ++ lit "\x7d"
  | _ => lit "null"

/-- A stand-in for the validator: a name with white space in it is refused. -/
def sampleValidName (name : JSString) : Option (List JSString) :=
  if name.any isSpace then some [lit "name can only contain URL-friendly characters"] else none

/-- The sample files once the name `app` has been substituted into `package.json`. -/
def sampleSubstituted : FS :=
  (sampleDisk true).write (lit "/home/app/package.json") (substitute (lit "app") samplePackageText)

/-- The sample environment: the directory `/home/taken` exists, nobody confirms
an override, and `yarn` is not installed. -/
def sampleWorld : World where
  answers := id
  enableForce := false
  resolve := sampleResolve
  resolve_ne := by
    intro segs
    unfold sampleResolve
    split
    · simp [lit]
    · decide
  dirname := fun _ => lit "/"
  isDir := fun p => p = lit "/home/taken"
  hasCommand := fun _ => false
  toUpperCase := List.map asciiUpper
  toLowerCase := List.map asciiLower
  toLowerCase_lower := by
    intro s c hc
    obtain ⟨d, -, rfl⟩ := List.mem_map.mp hc
    unfold asciiLower
    split <;> omega
  isValidName := sampleValidName
  fetch := sampleFetch
  parse := sampleParse
  stringify := sampleStringify
  addScripts := fun _ _ _ => sampleScripts
  glob := fun pattern =>
    if pattern = lit "/home/app/**/manifest.json" then [lit "/home/app/src/manifest.json"] else []
  install := fun _ _ => true
  initGit := fun _ => true

/-- The arguments of `preact create <template> <dest>` with every flag at its default. -/
def sampleArgv (template dest : String) : Argv where
  template := some (lit template)
  dest := some (lit dest)
  cwd := lit "."
  name := none
  force := false
  yarn := false
  git := false
  install := true

/-- The locals of the handler in the sample run `preact create default app`. -/
def sampleLocals : Locals where
  name := lit "app"
  dest := lit "app"
  target := lit "/home/app"
  repo := lit "preactjs-templates/default"
  isYarn := false
  install := true
  git := false


/-! ## Lemmas on strings -/

theorem includes_iff (hay needle : JSString) : includes hay needle = true ↔ needle <:+: hay := by
  induction hay with
  | nil => simp [includes, List.isPrefixOf_iff_prefix]
  | cons c hay ih =>
    simp only [includes, Bool.or_eq_true, ih, List.infix_cons_iff, List.isPrefixOf_iff_prefix]

theorem includes_slash (s : JSString) : includes s (lit "/") = true ↔ 47 ∈ s := by
  rw [includes_iff]
  have h : lit "/" = [47] := by decide
  rw [h]
  constructor
  · rintro ⟨a, b, rfl⟩; simp
  · intro hm
    obtain ⟨a, b, rfl⟩ := List.append_of_mem hm
    exact ⟨a, b, by simp⟩

/-! ## Lemmas on `RGX` -/

theorem asciiLower_eq_iff (p c : Nat) (hp : (97 ≤ p ∧ p ≤ 122) ∨ (48 ≤ p ∧ p ≤ 57)) :
    eqIgnoreCase p c = true ↔ asciiLower c = p := by
  unfold eqIgnoreCase asciiLower
  simp only [Bool.or_eq_true, Bool.and_eq_true, beq_iff_eq, decide_eq_true_eq]
  split <;> omega

theorem dropIgnoreCase_iff (e : JSString) (he : ∀ p ∈ e, (97 ≤ p ∧ p ≤ 122) ∨ (48 ≤ p ∧ p ≤ 57))
    (t r : JSString) :
    dropIgnoreCase e t = some r ↔ ∃ x, t = x ++ r ∧ x.map asciiLower = e := by
  induction e generalizing t with
  | nil =>
    simp only [dropIgnoreCase, Option.some.injEq, List.map_eq_nil_iff]
    constructor
    · rintro rfl; exact ⟨[], rfl, rfl⟩
    · rintro ⟨x, rfl, rfl⟩; rfl
  | cons p ps ih =>
    have hp := he p (List.mem_cons_self _ _)
    have hps : ∀ q ∈ ps, (97 ≤ q ∧ q ≤ 122) ∨ (48 ≤ q ∧ q ≤ 57) :=
      fun q hq => he q (List.mem_cons_of_mem _ hq)
    cases t with
    | nil =>
      simp only [dropIgnoreCase]
      constructor
      · intro h; cases h
      · rintro ⟨x, hx, hm⟩
        cases x with
        | nil => simp at hm
        | cons a x => simp at hx
    | cons c t =>
      simp only [dropIgnoreCase]
      constructor
      · intro h
        split at h
        · rename_i hc
          obtain ⟨x, rfl, rfl⟩ := (ih hps t).mp h
          exact ⟨c :: x, rfl, by simp [(asciiLower_eq_iff p c hp).mp hc]⟩
        · cases h
      · rintro ⟨x, hx, hm⟩
        cases x with
        | nil => simp at hm
        | cons a x =>
          simp only [List.cons_append, List.cons.injEq] at hx
          simp only [List.map_cons, List.cons.injEq] at hm
          obtain ⟨rfl, rfl⟩ := hx
          rw [if_pos ((asciiLower_eq_iff p c hp).mpr hm.1)]
          exact (ih hps _).mpr ⟨x, rfl, hm.2⟩

theorem extensions_chars : ∀ e ∈ extensions, ∀ p ∈ e, (97 ≤ p ∧ p ≤ 122) ∨ (48 ≤ p ∧ p ≤ 57) := by
  decide

theorem mem_mediaSuffixes (y : JSString) : y ∈ mediaSuffixes ↔ ∃ e ∈ extensions, y = 46 :: e := by
  have h : mediaSuffixes.Perm (extensions.map (List.cons 46)) := by decide
  rw [h.mem_iff]
  simp only [List.mem_map]
  constructor
  · rintro ⟨e, he, rfl⟩; exact ⟨e, he, rfl⟩
  · rintro ⟨e, he, rfl⟩; exact ⟨e, he, rfl⟩

theorem queryTail_iff (r : JSString) :
    queryTail r = true ↔ r = [] ∨ ∃ q, r = 63 :: q ∧ ∀ d ∈ q, isLineTerminator d = false := by
  cases r with
  | nil => simp [queryTail]
  | cons c q =>
    simp only [queryTail, Bool.and_eq_true, beq_iff_eq, List.all_eq_true, Bool.not_eq_true',
      false_or, List.cons.injEq, reduceCtorEq]
    constructor
    · rintro ⟨rfl, h⟩; exact ⟨q, ⟨rfl, rfl⟩, h⟩
    · rintro ⟨q2, ⟨rfl, rfl⟩, h⟩; exact ⟨rfl, h⟩

theorem rgxHere_iff (s : JSString) :
    rgxHere s = true ↔ ∃ suffix query, s = suffix ++ query ∧ suffix.map asciiLower ∈ mediaSuffixes ∧
      (query = [] ∨ ∃ q, query = 63 :: q ∧ ∀ d ∈ q, isLineTerminator d = false) := by
  cases s with
  | nil =>
    simp only [rgxHere, Bool.false_eq_true, false_iff]
    rintro ⟨suffix, query, hs, hm, -⟩
    obtain ⟨e, -, he⟩ := (mem_mediaSuffixes _).mp hm
    cases suffix with
    | nil => simp at he
    | cons a x => simp at hs
  | cons c t =>
    simp only [rgxHere, Bool.and_eq_true, beq_iff_eq, List.any_eq_true]
    constructor
    · rintro ⟨rfl, e, he, h⟩
      split at h
      · rename_i r hr
        obtain ⟨x, rfl, rfl⟩ := (dropIgnoreCase_iff e (extensions_chars e he) t r).mp hr
        refine ⟨46 :: x, r, rfl, ?_, (queryTail_iff r).mp h⟩
        exact (mem_mediaSuffixes _).mpr ⟨_, he, by simp [asciiLower]⟩
      · cases h
    · rintro ⟨suffix, query, hs, hm, hq⟩
      obtain ⟨e, he, hse⟩ := (mem_mediaSuffixes _).mp hm
      cases suffix with
      | nil => simp at hse
      | cons a x =>
        simp only [List.cons_append, List.cons.injEq] at hs
        simp only [List.map_cons, List.cons.injEq] at hse
        obtain ⟨rfl, rfl⟩ := hs
        have hc : c = 46 := by
          have := hse.1
          unfold asciiLower at this
          split at this <;> omega
        refine ⟨hc, e, he, ?_⟩
        rw [(dropIgnoreCase_iff e (extensions_chars e he) _ query).mpr ⟨x, rfl, hse.2⟩]
        exact (queryTail_iff query).mpr hq

theorem isMedia_iff (s : JSString) : isMedia s = true ↔ IsMediaPath s := by
  unfold IsMediaPath
  induction s with
  | nil =>
    simp only [isMedia, rgxHere_iff]
    constructor
    · rintro ⟨suffix, query, h⟩; exact ⟨[], suffix, query, h⟩
    · rintro ⟨pre, suffix, query, hs, h⟩
      have : pre = [] := by
        cases pre with
        | nil => rfl
        | cons a p => simp at hs
      subst this
      exact ⟨suffix, query, by simpa using hs, h⟩
  | cons c s ih =>
    simp only [isMedia, Bool.or_eq_true, rgxHere_iff, ih]
    constructor
    · rintro (⟨suffix, query, h⟩ | ⟨pre, suffix, query, hs, h⟩)
      · exact ⟨[], suffix, query, h⟩
      · exact ⟨c :: pre, suffix, query, by simp [hs], h⟩
    · rintro ⟨pre, suffix, query, hs, h⟩
      cases pre with
      | nil => exact Or.inl ⟨suffix, query, by simpa using hs, h⟩
      | cons a p =>
        simp only [List.cons_append, List.cons.injEq] at hs
        exact Or.inr ⟨p, suffix, query, by simpa using hs.2, h⟩

/-! ## Lemmas on the extraction filter -/

/-- Whether the `end` listener of an accepted entry pushes onto `keeps`. -/
theorem foldl_keeps (entries : List Entry) (acc : List JSString) :
    entries.foldl (fun keeps e => if filterAccepts e then onEnd keeps e else keeps) acc =
      acc ++ (entries.filter fun e =>
        filterAccepts e && (e.type == lit "File" && !isMedia e.objPath)).map Entry.absolute := by
  induction entries generalizing acc with
  | nil => simp
  | cons e es ih =>
    rw [List.foldl_cons, ih, List.filter_cons]
    by_cases h1 : filterAccepts e = true
    · by_cases h2 : (e.type == lit "File" && !isMedia e.objPath) = true
      · simp [h1, h2, onEnd]
      · simp [h1, h2, onEnd]
    · simp [h1]


/-! ## Lemmas on sequencing -/

theorem Step.andThen_ok {α β : Type} (s : Step α) (f : α → Step β) (a : α)
    (h : s.result = .ok a) : s.andThen f = ⟨s.trace ++ (f a).trace, (f a).result⟩ := by
  simp [Step.andThen, h]

theorem Step.andThen_error {α β : Type} (s : Step α) (f : α → Step β) (e : Halt)
    (h : s.result = .error e) : s.andThen f = ⟨s.trace, .error e⟩ := by
  simp [Step.andThen, h]

theorem Step.andThen_trace {α β : Type} (P : Effect → Prop) (s : Step α) (f : α → Step β)
    (hs : ∀ e ∈ s.trace, P e) (hf : ∀ a, ∀ e ∈ (f a).trace, P e) :
    ∀ e ∈ (s.andThen f).trace, P e := by
  intro e he
  unfold Step.andThen at he
  split at he
  · exact hs e he
  · rcases List.mem_append.mp he with h | h
    · exact hs e h
    · exact hf _ e h

/-! ## Lemmas on lines 52 to 101 -/

theorem beforeFetch_talks (w : World) (argv : Argv) :
    ∀ e ∈ (beforeFetch w argv).trace, e.isTalk = true := by
  unfold beforeFetch
  refine Step.andThen_trace _ _ _ ?_ fun _ => Step.andThen_trace _ _ _ ?_ fun _ =>
    Step.andThen_trace _ _ _ ?_ fun _ => Step.andThen_trace _ _ _ ?_ fun _ => ?_
  · unfold askMissing
    split <;> simp [Step.emit, Step.ret, Effect.isTalk]
  · unfold checkTarget
    simp only
    split
    · simp [error, Effect.isTalk]
    · split
      · refine Step.andThen_trace _ _ _ (by simp [Step.emit, Effect.isTalk]) fun _ => ?_
        split <;> simp [Step.emit, error, Effect.isTalk]
      · simp [Step.ret]
  · unfold chooseRepo
    split
    · simp [Step.reject]
    · split <;> simp [Step.ret, Effect.isTalk]
  · unfold checkName
    split <;> simp [Step.ret, error, Effect.isTalk]
  · simp [Step.ret]

theorem isTalk_clean (e : Effect) (h : e.isTalk = true) :
    e.isFetch = false ∧ e.isExtract = false ∧ e.isFileAccess = false ∧
      e.isInstallOrGit = false := by
  cases e <;> simp_all [Effect.isTalk, Effect.isFetch, Effect.isExtract, Effect.isFileAccess,
    Effect.isInstallOrGit]

theorem checkTarget_refused (w : World) (a : Argv)
    (h : w.isDir (targetOf w a) = true ∧ ¬ (a.force = true ∧ w.enableForce = true)) :
    ∃ text, (checkTarget w a).result = .error (.exit text 1) := by
  unfold checkTarget
  obtain ⟨hd, hf⟩ := h
  simp only [hd, Bool.true_and]
  by_cases hforce : a.force = true
  · have he : w.enableForce = false := by
      cases hw : w.enableForce
      · rfl
      · exact absurd ⟨hforce, hw⟩ hf
    simp [hforce, he, Step.andThen, Step.emit, error]
  · simp [hforce, error]

theorem checkTarget_passed (w : World) (a : Argv)
    (h : ¬ (w.isDir (targetOf w a) = true ∧ ¬ (a.force = true ∧ w.enableForce = true))) :
    (checkTarget w a).result = .ok () := by
  unfold checkTarget
  by_cases hd : w.isDir (targetOf w a) = true
  · have hfe : a.force = true ∧ w.enableForce = true := by
      by_contra hc
      exact h ⟨hd, hc⟩
    simp [hd, hfe.1, hfe.2, Step.andThen, Step.emit]
  · simp [hd, Step.ret]

theorem chooseRepo_ok (a : Argv) (template : JSString) (h : a.template = some template) :
    (chooseRepo a).result = .ok (resolveRepo template) := by
  unfold chooseRepo
  rw [h]
  simp only
  split <;> rfl

/-- What a run that reaches the fetch has established. -/
theorem beforeFetch_ok (w : World) (argv : Argv) (l : Locals)
    (h : (beforeFetch w argv).result = .ok l) :
    (∃ template, (prompted w argv).template = some template ∧ l.repo = resolveRepo template) ∧
      l.name = nameOf w (prompted w argv) ∧ l.target = targetOf w (prompted w argv) ∧
      w.isValidName l.name = none := by
  unfold beforeFetch at h
  have h0 : (askMissing argv).result = .ok () := by
    unfold askMissing; split <;> rfl
  rw [Step.andThen_ok _ _ _ h0] at h
  simp only at h
  by_cases hT : w.isDir (targetOf w (prompted w argv)) = true ∧
      ¬ ((prompted w argv).force = true ∧ w.enableForce = true)
  · obtain ⟨text, ht⟩ := checkTarget_refused w _ hT
    rw [Step.andThen_error _ _ _ ht] at h
    cases h
  · rw [Step.andThen_ok _ _ _ (checkTarget_passed w _ hT)] at h
    simp only at h
    cases htpl : (prompted w argv).template with
    | none =>
      have hr : (chooseRepo (prompted w argv)).result = .error (.rejected .typeError) := by
        unfold chooseRepo; rw [htpl]; rfl
      rw [Step.andThen_error _ _ _ hr] at h
      cases h
    | some template =>
      rw [Step.andThen_ok _ _ _ (chooseRepo_ok _ template htpl)] at h
      simp only at h
      cases hv : w.isValidName (nameOf w (prompted w argv)) with
      | some errors =>
        have hr : (checkName w (prompted w argv)).result =
            .error (.exit (invalidNameText w.toUpperCase (nameOf w (prompted w argv)) errors) 1) := by
          unfold checkName; rw [hv]; rfl
        rw [Step.andThen_error _ _ _ hr] at h
        cases h
      | none =>
        have hr : (checkName w (prompted w argv)).result = .ok (nameOf w (prompted w argv)) := by
          unfold checkName; rw [hv]; rfl
        rw [Step.andThen_ok _ _ _ hr] at h
        simp only [Step.ret, Except.ok.injEq] at h
        subst h
        exact ⟨⟨template, rfl, rfl⟩, rfl, rfl, hv⟩

theorem mem_infix_join (sep : JSString) (lines : List JSString) (x : JSString)
    (hx : x ∈ lines) : x <:+: join sep lines := by
  induction lines with
  | nil => cases hx
  | cons a rest ih =>
    cases rest with
    | nil =>
      have : x = a := by simpa using hx
      subst this
      exact List.infix_refl _
    | cons b rest =>
      rcases List.mem_cons.mp hx with rfl | h
      · exact ⟨[], sep ++ join sep (b :: rest), by simp [join]⟩
      · obtain ⟨p, q, hpq⟩ := ih h
        exact ⟨a ++ sep ++ p, q, by simp [join, ← hpq]⟩


/-! ## The repository reference -/

/-- C10: the repository reference is `preactjs-templates/<reference>` when the
reference has no `/` in it and the reference itself when it has one, so that it
always has a `/` in it; `my-template` resolves to
`preactjs-templates/my-template`, and the handler takes this value as `repo`
whenever the template is defined. -/
theorem resolveRepo_spec (template : JSString) :
    (47 ∉ template → resolveRepo template = lit "preactjs-templates/" ++ template) ∧
    (47 ∈ template → resolveRepo template = template) ∧
    47 ∈ resolveRepo template ∧
    resolveRepo (lit "my-template") = lit "preactjs-templates/my-template" ∧
    ∀ argv : Argv, argv.template = some template →
      (chooseRepo argv).result = .ok (resolveRepo template) := by
  have horg : ORG ++ lit "/" = lit "preactjs-templates/" := by decide
  refine ⟨?_, ?_, ?_, by decide, fun argv h => chooseRepo_ok argv template h⟩
  · intro h
    have hi : includes template (lit "/") = false := by
      rw [← Bool.not_eq_true, includes_slash]; exact h
    simp [resolveRepo, hi, horg]
  · intro h
    simp [resolveRepo, (includes_slash template).mpr h]
  · by_cases h : 47 ∈ template
    · simp [resolveRepo, (includes_slash template).mpr h, h]
    · have hi : includes template (lit "/") = false := by
        rw [← Bool.not_eq_true, includes_slash]; exact h
      simp only [resolveRepo, hi, Bool.not_false, if_true, horg]
      have : (47 : Nat) ∈ lit "preactjs-templates/" := by decide
      exact List.mem_append_left _ this

/-! ## The extraction filter -/

/-- C2: after the extraction, `keeps` holds, in entry order, the `absolute`
paths of exactly the entries that the filter accepts, whose type is `File` and
whose path is not matched by `RGX`; an entry is one of those exactly when its
archive path has `/template/` in it, its type is `File`, and its path is no
media path (it does not end, case aside and up to a `?` query, in one of the
thirteen media suffixes). -/
theorem extractKeeps_spec (entries : List Entry) :
    extractKeeps entries =
      (entries.filter fun e =>
        filterAccepts e && (e.type == lit "File" && !isMedia e.objPath)).map Entry.absolute ∧
    ∀ e : Entry, (filterAccepts e && (e.type == lit "File" && !isMedia e.objPath)) = true ↔
      (lit "/template/" <:+: e.path ∧ e.type = lit "File" ∧ ¬ IsMediaPath e.objPath) := by
  constructor
  · unfold extractKeeps
    rw [foldl_keeps]
    rfl
  · intro e
    simp only [Bool.and_eq_true, filterAccepts, includes_iff, beq_iff_eq, Bool.not_eq_true',
      ← isMedia_iff, Bool.not_eq_true]

/-! ## Placeholder substitution -/

/-- C1: with the name `Foo`, the tokens `{{name}}` and `{{ name}}` come out of
the substitution step unchanged, because the pattern asks for exactly one
white-space unit after the key; only `{{name }}` and `{{ name }}` are replaced,
and the pattern matches neither tight form whatever follows it.  In the sample run the text written back to `manifest.json` still holds
`{{name}}`. -/
theorem substitute_keeps_tight_tokens :
    substitute (lit "Foo") (lit "a \x7b\x7bname\x7d\x7d b \x7b\x7b name\x7d\x7d c") =
      lit "a \x7b\x7bname\x7d\x7d b \x7b\x7b name\x7d\x7d c" ∧
    substitute (lit "Foo") (lit "\x7b\x7bname \x7d\x7d and \x7b\x7b name \x7d\x7d") =
      lit "Foo and Foo" ∧
    (∀ rest, tokenHere (lit "\x7b\x7bname\x7d\x7d" ++ rest) = none ∧
      tokenHere (lit "\x7b\x7b name\x7d\x7d" ++ rest) = none) ∧
    Effect.writeFile (lit "/home/app/src/manifest.json")
        (lit "\x7b \"short_name\": \"\x7b\x7bname\x7d\x7d\" \x7d") ∈
      (handler sampleWorld (sampleArgv "default" "app")).trace := by
  refine ⟨by decide, by decide, fun rest => ⟨rfl, rfl⟩, ?_⟩
  decide

/-! ## The run up to the manifests -/

/-- C3: when a run reaches the extraction and nothing is kept, the handler
reports `No template directory found within <repo>!` through `error` with
status 1 right after the extraction and stops there; `<repo>` is the resolved
template reference, and the run reads and writes no file, installs nothing and
initialises no repository. -/
theorem empty_keeps_halts (w : World) (argv : Argv) (l : Locals) (archive : Archive)
    (hpre : (beforeFetch w argv).result = .ok l)
    (hfetch : w.fetch l.repo = .ok archive)
    (hkeeps : extractKeeps archive.entries = []) :
    handler w argv =
      ⟨(beforeFetch w argv).trace ++ [.fetch l.repo, .spinnerStart, .extract l.target,
          .error (lit "No `template` directory found within " ++ l.repo ++ lit "!") 1],
        .error (.exit (lit "No `template` directory found within " ++ l.repo ++ lit "!") 1)⟩ ∧
    (∃ template, (prompted w argv).template = some template ∧ l.repo = resolveRepo template) ∧
    ∀ e ∈ (handler w argv).trace, e.isFileAccess = false ∧ e.isInstallOrGit = false := by
  have hrun : handler w argv =
      ⟨(beforeFetch w argv).trace ++ [.fetch l.repo, .spinnerStart, .extract l.target,
          .error (lit "No `template` directory found within " ++ l.repo ++ lit "!") 1],
        .error (.exit (lit "No `template` directory found within " ++ l.repo ++ lit "!") 1)⟩ := by
    unfold handler
    rw [Step.andThen_ok _ _ l hpre]
    simp [fetchArchive, hfetch, extractAndSubstitute, hkeeps, Step.andThen, Step.emit, Step.ret,
      error]
  refine ⟨hrun, (beforeFetch_ok w argv l hpre).1, ?_⟩
  rw [hrun]
  intro e he
  rcases List.mem_append.mp he with h | h
  · have := isTalk_clean e (beforeFetch_talks w argv e h)
    exact ⟨this.2.2.1, this.2.2.2⟩
  · simp only [List.mem_cons, List.mem_singleton, List.not_mem_nil, or_false] at h
    rcases h with rfl | rfl | rfl | rfl <;> exact ⟨rfl, rfl⟩

theorem empty_keeps_halts_witness :
    (beforeFetch sampleWorld (sampleArgv "empty" "app")).result =
      .ok { sampleLocals with repo := lit "preactjs-templates/empty" } ∧
    extractKeeps emptyEntries = [] ∧
    (handler sampleWorld (sampleArgv "empty" "app")).result =
      .error (.exit (lit "No `template` directory found within preactjs-templates/empty!") 1) :=
  ⟨rfl, rfl, (congrArg Step.result (empty_keeps_halts sampleWorld (sampleArgv "empty" "app")
    { sampleLocals with repo := lit "preactjs-templates/empty" }
    ⟨emptyEntries, sampleDisk false⟩ rfl rfl rfl).1).trans rfl⟩


/-- C8: when the target exists without a confirmed `--force`, or when the run
gets to the validator and it returns errors for the name, the handler ends in
`error` with status 1; for a refused name the text is the header and every
violation, each capitalised, joined line by line, so each violation stands in
it; and the run fetches nothing, extracts nothing, touches no file, installs
nothing and initialises no repository. -/
theorem validation_failure_halts (w : World) (argv : Argv)
    (h : TargetRefused w argv ∨ ∃ errors, NameRefused w argv errors) :
    ∃ text, (handler w argv).result = .error (.exit text 1) ∧
      (∀ errors, NameRefused w argv errors →
        text = invalidNameText w.toUpperCase (nameOf w (prompted w argv)) errors ∧
        ∀ v ∈ errors, capitalize w.toUpperCase v <:+: text) ∧
      ∀ e ∈ (handler w argv).trace, e.isFetch = false ∧ e.isExtract = false ∧
        e.isFileAccess = false ∧ e.isInstallOrGit = false := by
  have h0 : (askMissing argv).result = .ok () := by
    unfold askMissing; split <;> rfl
  have hclean : ∀ text, (beforeFetch w argv).result = .error (.exit text 1) →
      (handler w argv).result = .error (.exit text 1) ∧
      ∀ e ∈ (handler w argv).trace, e.isFetch = false ∧ e.isExtract = false ∧
        e.isFileAccess = false ∧ e.isInstallOrGit = false := by
    intro text ht
    have hrun : handler w argv = ⟨(beforeFetch w argv).trace, .error (.exit text 1)⟩ := by
      unfold handler
      rw [Step.andThen_error _ _ _ ht]
    rw [hrun]
    exact ⟨rfl, fun e he => isTalk_clean e (beforeFetch_talks w argv e he)⟩
  by_cases hT : TargetRefused w argv
  · obtain ⟨text, ht⟩ := checkTarget_refused w _ hT
    have hb : (beforeFetch w argv).result = .error (.exit text 1) := by
      unfold beforeFetch
      rw [Step.andThen_ok _ _ _ h0]
      simp only
      rw [Step.andThen_error _ _ _ ht]
    exact ⟨text, (hclean text hb).1, fun errors hn => absurd hT hn.1, (hclean text hb).2⟩
  · obtain ⟨errors, hN⟩ := h.resolve_left hT
    obtain ⟨-, htpl, hv⟩ := hN
    obtain ⟨template, htpl⟩ := Option.ne_none_iff_exists'.mp htpl
    have hr : (checkName w (prompted w argv)).result =
        .error (.exit (invalidNameText w.toUpperCase (nameOf w (prompted w argv)) errors) 1) := by
      unfold checkName; rw [hv]; rfl
    have hb : (beforeFetch w argv).result =
        .error (.exit (invalidNameText w.toUpperCase (nameOf w (prompted w argv)) errors) 1) := by
      unfold beforeFetch
      rw [Step.andThen_ok _ _ _ h0]
      simp only
      rw [Step.andThen_ok _ _ _ (checkTarget_passed w _ hT)]
      simp only
      rw [Step.andThen_ok _ _ _ (chooseRepo_ok _ template htpl)]
      simp only
      rw [Step.andThen_error _ _ _ hr]
    refine ⟨_, (hclean _ hb).1, ?_, (hclean _ hb).2⟩
    intro errors2 hN2
    have he : errors2 = errors := by
      have := hN2.2.2
      rw [hv] at this
      exact (Option.some.inj this).symm
    subst he
    refine ⟨rfl, fun v hv2 => ?_⟩
    unfold invalidNameText
    apply mem_infix_join
    exact List.mem_map.mpr ⟨v, List.mem_cons_of_mem _ hv2, rfl⟩

theorem validation_failure_halts_witness :
    TargetRefused sampleWorld (sampleArgv "default" "taken") ∧
    NameRefused sampleWorld (sampleArgv "default" "my app")
      [lit "name can only contain URL-friendly characters"] ∧
    (∃ text, (handler sampleWorld (sampleArgv "default" "taken")).result =
      .error (.exit text 1)) ∧
    ∃ text, (handler sampleWorld (sampleArgv "default" "my app")).result =
      .error (.exit text 1) ∧ lit "Name can only contain URL-friendly characters" <:+: text := by
  have hT : TargetRefused sampleWorld (sampleArgv "default" "taken") := by
    constructor
    · decide
    · rintro ⟨hf, -⟩; exact absurd hf (by decide)
  have hN : NameRefused sampleWorld (sampleArgv "default" "my app")
      [lit "name can only contain URL-friendly characters"] := by
    refine ⟨?_, by decide, by decide⟩
    rintro ⟨hd, -⟩
    exact absurd hd (by decide)
  refine ⟨hT, hN, ?_, ?_⟩
  · obtain ⟨text, ht, -⟩ := validation_failure_halts sampleWorld _ (Or.inl hT)
    exact ⟨text, ht⟩
  · obtain ⟨text, ht, hl, -⟩ := validation_failure_halts sampleWorld _ (Or.inr ⟨_, hN⟩)
    exact ⟨text, ht, (hl _ hN).2 _ (List.mem_singleton_self _)⟩

/-- C9: when the fetch of a run fails, the handler reports through `error` with
status 1 right after the fetch and stops: the text is
`Could not find repository: <repo>` when the code of the failure is 404, the
message of the failure when the code is anything else, and
`An error occured while fetching template.` when there is no error object; the
run extracts nothing and touches no file. -/
theorem fetch_failure_halts (w : World) (argv : Argv) (l : Locals) (err : Option FetchError)
    (hpre : (beforeFetch w argv).result = .ok l)
    (hfetch : w.fetch l.repo = .error err) :
    handler w argv =
      ⟨(beforeFetch w argv).trace ++ [.fetch l.repo, .error (fetchErrorText l.repo err) 1],
        .error (.exit (fetchErrorText l.repo err) 1)⟩ ∧
    (∀ e, err = some e → e.code = some (.status 404) →
      fetchErrorText l.repo err = lit "Could not find repository: " ++ l.repo) ∧
    (∀ e, err = some e → e.code ≠ some (.status 404) → fetchErrorText l.repo err = e.message) ∧
    (err = none → fetchErrorText l.repo err = lit "An error occured while fetching template.") ∧
    ∀ e ∈ (handler w argv).trace, e.isExtract = false ∧ e.isFileAccess = false ∧
      e.isInstallOrGit = false := by
  have hrun : handler w argv =
      ⟨(beforeFetch w argv).trace ++ [.fetch l.repo, .error (fetchErrorText l.repo err) 1],
        .error (.exit (fetchErrorText l.repo err) 1)⟩ := by
    unfold handler
    rw [Step.andThen_ok _ _ l hpre]
    simp [fetchArchive, hfetch, Step.andThen, Step.emit, error]
  refine ⟨hrun, ?_, ?_, ?_, ?_⟩
  · rintro e rfl hc
    simp [fetchErrorText, hc]
  · rintro e rfl hc
    simp [fetchErrorText, hc]
  · rintro rfl
    simp [fetchErrorText]
  · rw [hrun]
    intro e he
    rcases List.mem_append.mp he with h | h
    · have := isTalk_clean e (beforeFetch_talks w argv e h)
      exact ⟨this.2.1, this.2.2.1, this.2.2.2⟩
    · simp only [List.mem_cons, List.mem_singleton, List.not_mem_nil, or_false] at h
      rcases h with rfl | rfl <;> exact ⟨rfl, rfl, rfl⟩

theorem fetch_failure_halts_witness :
    (beforeFetch sampleWorld (sampleArgv "nowhere" "app")).result =
      .ok { sampleLocals with repo := lit "preactjs-templates/nowhere" } ∧
    (handler sampleWorld (sampleArgv "nowhere" "app")).result =
      .error (.exit (lit "Could not find repository: preactjs-templates/nowhere") 1) :=
  ⟨rfl, (congrArg Step.result (fetch_failure_halts sampleWorld (sampleArgv "nowhere" "app")
    { sampleLocals with repo := lit "preactjs-templates/nowhere" }
    (some { code := some (.status 404), message := lit "Not Found" }) rfl rfl).1).trans rfl⟩

/-! ## The package manifest -/

/-- C4: in the sample run of the template `bare`, which has no `package.json`,
the handler reads `/home/app/package.json`, the read throws, and the run ends
rejected: the warning about the missing file is not among its effects and
nothing after the read is performed. -/
theorem missing_package_rejects :
    sampleDisk false (lit "/home/app/package.json") = none ∧
    (handler sampleWorld (sampleArgv "bare" "app")).result =
      .error (.rejected (.noEntry (lit "/home/app/package.json"))) ∧
    Effect.warn (lit "Could not locate `package.json` file!") ∉
      (handler sampleWorld (sampleArgv "bare" "app")).trace ∧
    (handler sampleWorld (sampleArgv "bare" "app")).trace.getLast? =
      some (.readFile (lit "/home/app/package.json")) := by
  refine ⟨by decide, by rfl, by decide, by rfl⟩

/-- X1: whatever the environment, `loadPackage` never takes its warning branch:
the path it tests is never empty, so a missing file makes the read throw. -/
theorem loadPackage_missing (w : World) (l : Locals) (fs : FS)
    (h : fs (w.resolve [l.target, lit "package.json"]) = none) :
    loadPackage w l fs =
      ⟨[.readFile (w.resolve [l.target, lit "package.json"])],
        .error (.rejected (.noEntry (w.resolve [l.target, lit "package.json"])))⟩ := by
  unfold loadPackage
  have hne : nonEmpty? (some (w.resolve [l.target, lit "package.json"])) = true := by
    have := w.resolve_ne [l.target, lit "package.json"]
    cases hr : w.resolve [l.target, lit "package.json"] with
    | nil => exact absurd hr this
    | cons a b => rfl
  simp [hne, readFile, h, Step.andThen]


theorem loadPackage_missing_witness :
    loadPackage sampleWorld sampleLocals (sampleDisk false) =
      ⟨[.readFile (lit "/home/app/package.json")],
        .error (.rejected (.noEntry (lit "/home/app/package.json")))⟩ :=
  loadPackage_missing sampleWorld sampleLocals (sampleDisk false) rfl

/-! ## Lemmas on objects -/

theorem getProp_setProp (k : JSString) (v : Json) (props : List (JSString × Json)) :
    getProp k (setProp k v props) = some v := by
  induction props with
  | nil => simp [setProp, getProp]
  | cons kv rest ih =>
    obtain ⟨k1, v1⟩ := kv
    by_cases h : k1 = k
    · simp [setProp, getProp, h]
    · simp [setProp, getProp, h, ih]

theorem getProp_setProp_ne (k k2 : JSString) (v : Json) (props : List (JSString × Json))
    (hk : k ≠ k2) : getProp k2 (setProp k v props) = getProp k2 props := by
  induction props with
  | nil => simp [setProp, getProp, hk]
  | cons kv rest ih =>
    obtain ⟨k1, v1⟩ := kv
    by_cases h : k1 = k
    · subst h
      simp [setProp, getProp, hk]
    · by_cases h2 : k1 = k2
      · subst h2
        simp [setProp, getProp, h]
      · simp [setProp, getProp, h, h2, ih]

theorem setProp_of_getProp (k : JSString) (v : Json) (props : List (JSString × Json))
    (h : getProp k props = some v) : setProp k v props = props := by
  induction props with
  | nil => simp [getProp] at h
  | cons kv rest ih =>
    obtain ⟨k1, v1⟩ := kv
    by_cases hk : k1 = k
    · subst hk
      simp only [getProp, beq_self_eq_true, if_true, Option.some.injEq] at h
      simp [setProp, h]
    · simp only [getProp, beq_iff_eq, hk, if_false] at h
      simp [setProp, hk, ih h]

/-! ## Lemmas on `/\s+/g` -/

theorem getSubstitution_underscore (matched before after : JSString) :
    getSubstitution matched before after (lit "_") = [95] := by
  have h : lit "_" = [95] := by decide
  rw [h]
  rfl

theorem spaceRun_ne_zero (s : JSString) : spaceRun s ≠ some 0 := by
  unfold spaceRun
  split <;> simp

theorem spaceRun_of_not_space (c : Nat) (s : JSString) (h : isSpace c = false) :
    spaceRun (c :: s) = none := by
  simp [spaceRun, List.takeWhile, h]

/-- The result of the replacement does not depend on the text the offsets are
taken in, since the replacement `_` has no `$` in it. -/
theorem replaceFrom_whole (whole whole2 : JSString) (k : Nat) (s : JSString) :
    replaceFrom spaceRun (lit "_") whole k s = replaceFrom spaceRun (lit "_") whole2 k s := by
  induction s generalizing k with
  | nil => simp [replaceFrom, getSubstitution_underscore]
  | cons c s ih =>
    cases k with
    | succ k => simp only [replaceFrom]; exact ih k
    | zero =>
      simp only [replaceFrom, getSubstitution_underscore]
      split
      · rw [ih 0]
      · rw [ih]
      · rw [ih 0]

theorem replaceFrom_succ (m : JSString → Option Nat) (v whole : JSString) (k a : Nat)
    (t : JSString) : replaceFrom m v whole (k + 1) (a :: t) = replaceFrom m v whole k t := by
  simp [replaceFrom]

theorem replaceFrom_match (m : JSString → Option Nat) (v whole : JSString) (n a : Nat)
    (t : JSString) (h : m (a :: t) = some (n + 1)) :
    replaceFrom m v whole 0 (a :: t) =
      getSubstitution ((a :: t).take (n + 1)) (whole.take (whole.length - (a :: t).length))
        ((a :: t).drop (n + 1)) v ++ replaceFrom m v whole n t := by
  simp [replaceFrom, h]

theorem replaceFrom_skip (whole x s : JSString) :
    replaceFrom spaceRun (lit "_") whole x.length (x ++ s) =
      replaceFrom spaceRun (lit "_") whole 0 s := by
  induction x with
  | nil => rfl
  | cons a x ih =>
    show replaceFrom spaceRun (lit "_") whole (x.length + 1) (a :: (x ++ s)) = _
    rw [replaceFrom_succ, ih]

theorem replaceFrom_chars (whole : JSString) (k : Nat) (s : JSString) :
    ∀ c ∈ replaceFrom spaceRun (lit "_") whole k s, isSpace c = false ∧ (c = 95 ∨ c ∈ s) := by
  induction s generalizing k with
  | nil =>
    intro c hc
    have hn : spaceRun [] = none := rfl
    simp [replaceFrom, hn] at hc
  | cons a s ih =>
    intro c hc
    cases k with
    | succ k =>
      simp only [replaceFrom] at hc
      have := ih k c hc
      exact ⟨this.1, this.2.imp id (List.mem_cons_of_mem _)⟩
    | zero =>
      simp only [replaceFrom, getSubstitution_underscore] at hc
      split at hc
      · rename_i h0
        exact absurd h0 (spaceRun_ne_zero _)
      · rcases List.mem_append.mp hc with h | h
        · have : c = 95 := by simpa using h
          subst this
          exact ⟨by decide, Or.inl rfl⟩
        · have := ih _ c h
          exact ⟨this.1, this.2.imp id (List.mem_cons_of_mem _)⟩
      · rename_i hn
        rcases List.mem_cons.mp hc with rfl | h
        · refine ⟨?_, Or.inr (List.mem_cons_self _ _)⟩
          by_contra hsp
          have hsp2 : isSpace c = true := by simpa using hsp
          have : spaceRun (c :: s) ≠ none := by
            simp [spaceRun, List.takeWhile, hsp2]
          exact this hn
        · have := ih _ c h
          exact ⟨this.1, this.2.imp id (List.mem_cons_of_mem _)⟩

theorem replaceAll_nil : replaceAll spaceRun (lit "_") [] = [] := by
  rfl

theorem replaceAll_cons (c : Nat) (s : JSString) (h : isSpace c = false) :
    replaceAll spaceRun (lit "_") (c :: s) = c :: replaceAll spaceRun (lit "_") s := by
  unfold replaceAll
  simp only [replaceFrom, spaceRun_of_not_space c s h]
  rw [replaceFrom_whole (c :: s) s]

theorem takeWhile_run (ws s : JSString) (hws : ∀ c ∈ ws, isSpace c = true)
    (hs : ∀ c ∈ s.head?, isSpace c = false) : (ws ++ s).takeWhile isSpace = ws := by
  induction ws with
  | nil =>
    cases s with
    | nil => rfl
    | cons a s =>
      have := hs a (by simp)
      simp [List.takeWhile, this]
  | cons a ws ih =>
    have ha := hws a (List.mem_cons_self _ _)
    rw [List.cons_append, List.takeWhile_cons, ha, if_pos rfl,
      ih fun c hc => hws c (List.mem_cons_of_mem _ hc)]

theorem replaceAll_run (ws s : JSString) (hne : ws ≠ []) (hws : ∀ c ∈ ws, isSpace c = true)
    (hs : ∀ c ∈ s.head?, isSpace c = false) :
    replaceAll spaceRun (lit "_") (ws ++ s) = 95 :: replaceAll spaceRun (lit "_") s := by
  cases ws with
  | nil => exact absurd rfl hne
  | cons a ws =>
    have hrun : spaceRun (a :: (ws ++ s)) = some (ws.length + 1) := by
      have := takeWhile_run (a :: ws) s hws hs
      simp only [List.cons_append] at this
      simp [spaceRun, this]
    unfold replaceAll
    rw [List.cons_append, replaceFrom_match _ _ _ _ _ _ hrun, getSubstitution_underscore,
      replaceFrom_skip, replaceFrom_whole _ s]
    rfl


/-! ## Lemmas on lines 154 to 190 -/

theorem Step.mk_ok_andThen {α β : Type} (t : List Effect) (a : α) (f : α → Step β) :
    (⟨t, .ok a⟩ : Step α).andThen f = ⟨t ++ (f a).trace, (f a).result⟩ := rfl

theorem pkgFile_nonEmpty (w : World) (l : Locals) :
    nonEmpty? (some (w.resolve [l.target, lit "package.json"])) = true := by
  have := w.resolve_ne [l.target, lit "package.json"]
  cases hr : w.resolve [l.target, lit "package.json"] with
  | nil => exact absurd hr this
  | cons a b => rfl

theorem defaultScripts_truthy (w : World) (l : Locals) (props : List (JSString × Json))
    (h : truthy? (getProp (lit "scripts") props) = true) :
    defaultScripts w l (.obj props) = ⟨[], .ok (.obj props)⟩ := by
  cases hg : getProp (lit "scripts") props with
  | none => rw [hg] at h; cases h
  | some v =>
    rw [hg] at h
    unfold defaultScripts
    simp only [readScripts, hg, Step.ret, Step.mk_ok_andThen, h, if_true, Option.getD_some,
      assign, setProp_of_getProp _ _ _ hg, List.nil_append]

theorem defaultScripts_falsy (w : World) (l : Locals) (props : List (JSString × Json))
    (h : truthy? (getProp (lit "scripts") props) = false) :
    defaultScripts w l (.obj props) =
      ⟨[.addScripts l.target l.isYarn],
        .ok (.obj (setProp (lit "scripts") (w.addScripts (.obj props) l.target l.isYarn) props))⟩ := by
  unfold defaultScripts
  simp only [readScripts, Step.ret, Step.emit, Step.mk_ok_andThen, h, Bool.false_eq_true,
    if_false, assign, List.nil_append, List.append_nil]

theorem loadPackage_obj (w : World) (l : Locals) (fs : FS) (text : JSString)
    (props : List (JSString × Json))
    (hread : fs (w.resolve [l.target, lit "package.json"]) = some text)
    (hparse : w.parse text = some (.obj props)) :
    loadPackage w l fs =
      ⟨.readFile (w.resolve [l.target, lit "package.json"]) ::
          (if truthy? (getProp (lit "scripts") props) then []
            else [.addScripts l.target l.isYarn]),
        .ok (some (.obj (setProp (lit "scripts")
          (if truthy? (getProp (lit "scripts") props)
            then (getProp (lit "scripts") props).getD .null
            else w.addScripts (.obj props) l.target l.isYarn) props)))⟩ := by
  unfold loadPackage
  simp only [pkgFile_nonEmpty, if_true, readFile, hread, parseJson, hparse, Step.ret,
    Step.mk_ok_andThen]
  by_cases h : truthy? (getProp (lit "scripts") props) = true
  · cases hg : getProp (lit "scripts") props with
    | none => rw [hg] at h; cases h
    | some v =>
      rw [defaultScripts_truthy w l props h]
      rw [hg] at h
      simp only [Step.mk_ok_andThen, h, if_true, Option.getD_some, setProp_of_getProp _ _ _ hg,
        List.nil_append, List.append_nil, List.singleton_append]
  · have h2 : truthy? (getProp (lit "scripts") props) = false := by simpa using h
    rw [defaultScripts_falsy w l props h2]
    simp only [Step.mk_ok_andThen, h2, Bool.false_eq_true, if_false, List.nil_append,
      List.append_nil, List.singleton_append]

theorem renamePackage_obj (w : World) (l : Locals) (props : List (JSString × Json)) :
    renamePackage w l (some (.obj props)) =
      ⟨[.spinnerText (lit "Updating `name` within `package.json` file")],
        .ok (some (.obj (setProp (lit "name") (.str (normalizedName w l)) props)))⟩ := by
  unfold renamePackage
  simp only [truthy?, Json.truthy, if_true, Step.emit, Step.ret, Step.mk_ok_andThen,
    Option.getD_some, assign, List.nil_append, List.append_nil]

theorem patchManifests_obj (w : World) (l : Locals) (fs : FS) (text : JSString)
    (props : List (JSString × Json))
    (hread : fs (w.resolve [l.target, lit "package.json"]) = some text)
    (hparse : w.parse text = some (.obj props))
    (hmanifest : (patchManifest w l fs).result = .ok ()) :
    (patchManifests w l fs).result = .ok () ∧
    (patchManifests w l fs).trace.getLast? =
      some (.writeFile (w.resolve [l.target, lit "package.json"])
        (w.stringify (.obj (patchedPackage w l props)))) := by
  unfold patchManifests
  rw [loadPackage_obj w l fs text props hread hparse]
  simp only [Step.emit, Step.mk_ok_andThen, renamePackage_obj]
  rw [Step.andThen_ok _ _ _ hmanifest]
  simp only [writePackage, truthy?, Json.truthy, if_true, Step.emit, Option.getD_some]
  refine ⟨trivial, ?_⟩
  simp only [← List.append_assoc]
  rw [List.getLast?_append]
  rfl


/-- C5, amended: for a `package.json` that parses to an object, a truthy
`scripts` property is left as it is, the document is untouched by line 162 and
`addScripts` is not called; a `scripts` property that is missing or falsy
(`null`, `false`, `0`, `""`) is set to what `addScripts(pkgData, target, isYarn)`
returns, a non-empty mapping whenever that is one; either way the renaming leaves `scripts` alone, so that is its value
in the object that gets written. -/
theorem default_scripts (w : World) (l : Locals) (fs : FS) (text : JSString)
    (props : List (JSString × Json))
    (hread : fs (w.resolve [l.target, lit "package.json"]) = some text)
    (hparse : w.parse text = some (.obj props)) :
    (truthy? (getProp (lit "scripts") props) = true →
      loadPackage w l fs =
        ⟨[.readFile (w.resolve [l.target, lit "package.json"])], .ok (some (.obj props))⟩ ∧
      getProp (lit "scripts") (patchedPackage w l props) = getProp (lit "scripts") props) ∧
    (truthy? (getProp (lit "scripts") props) = false →
      loadPackage w l fs =
        ⟨[.readFile (w.resolve [l.target, lit "package.json"]), .addScripts l.target l.isYarn],
          .ok (some (.obj (setProp (lit "scripts")
            (w.addScripts (.obj props) l.target l.isYarn) props)))⟩ ∧
      getProp (lit "scripts") (patchedPackage w l props) =
        some (w.addScripts (.obj props) l.target l.isYarn) ∧
      ∀ kv rest, w.addScripts (.obj props) l.target l.isYarn = .obj (kv :: rest) →
        getProp (lit "scripts") (patchedPackage w l props) = some (.obj (kv :: rest))) := by
  have hne : lit "name" ≠ lit "scripts" := by decide
  constructor
  · intro h
    cases hg : getProp (lit "scripts") props with
    | none => rw [hg] at h; cases h
    | some v =>
      rw [loadPackage_obj w l fs text props hread hparse]
      unfold patchedPackage
      rw [getProp_setProp_ne _ _ _ _ hne, getProp_setProp]
      rw [hg] at h
      simp only [hg, h, if_true, Option.getD_some, setProp_of_getProp _ _ _ hg, and_self]
  · intro h
    rw [loadPackage_obj w l fs text props hread hparse]
    unfold patchedPackage
    rw [getProp_setProp_ne _ _ _ _ hne, getProp_setProp]
    simp only [h, Bool.false_eq_true, if_false, true_and]
    intro kv rest hk
    rw [hk]

theorem default_scripts_witness :
    sampleSubstituted (lit "/home/app/package.json") = some (lit "\x7b \"name\": \"app\" \x7d") ∧
    loadPackage sampleWorld sampleLocals sampleSubstituted =
      ⟨[.readFile (lit "/home/app/package.json"), .addScripts (lit "/home/app") false],
        .ok (some (.obj [(lit "name", .str (lit "app")), (lit "scripts", sampleScripts)]))⟩ :=
  ⟨rfl, ((default_scripts sampleWorld sampleLocals sampleSubstituted
    (lit "\x7b \"name\": \"app\" \x7d") [(lit "name", .str (lit "app"))] rfl rfl).2 rfl).1⟩

/-- C5 as stated fails: a manifest whose `scripts` property exists with the value
`null` does not keep it; `addScripts` is called and its result replaces the
property. -/
theorem null_scripts_replaced :
    getProp (lit "scripts") [(lit "scripts", Json.null)] = some Json.null ∧
    defaultScripts sampleWorld sampleLocals (.obj [(lit "scripts", .null)]) =
      ⟨[.addScripts (lit "/home/app") false], .ok (.obj [(lit "scripts", sampleScripts)])⟩ ∧
    getProp (lit "scripts") (patchedPackage sampleWorld sampleLocals [(lit "scripts", .null)]) =
      some sampleScripts ∧
    sampleScripts ≠ Json.null := by
  refine ⟨rfl, rfl, rfl, ?_⟩
  intro h
  cases h

/-- C6: for a `package.json` that parses to an object, in a run that gets past
the app manifest, the manifest step ends by writing `package.json` with an
object whose `name` is the invocation name lower-cased and then passed through
`replace(/\s+/g, '_')`, whatever the name was before.  That replacement copies
a unit that is no white space and turns a maximal run of white space into one
`_`; so the written name holds no white space and none of `A` to `Z`, and each
of its units is `_` or a unit of the lower-cased name. -/
theorem package_name_written (w : World) (l : Locals) (fs : FS) (text : JSString)
    (props : List (JSString × Json))
    (hread : fs (w.resolve [l.target, lit "package.json"]) = some text)
    (hparse : w.parse text = some (.obj props))
    (hmanifest : (patchManifest w l fs).result = .ok ()) :
    (patchManifests w l fs).result = .ok () ∧
    (patchManifests w l fs).trace.getLast? =
      some (.writeFile (w.resolve [l.target, lit "package.json"])
        (w.stringify (.obj (patchedPackage w l props)))) ∧
    getProp (lit "name") (patchedPackage w l props) = some (.str (normalizedName w l)) ∧
    normalizedName w l = replaceAll spaceRun (lit "_") (w.toLowerCase l.name) ∧
    replaceAll spaceRun (lit "_") [] = [] ∧
    (∀ c s, isSpace c = false →
      replaceAll spaceRun (lit "_") (c :: s) = c :: replaceAll spaceRun (lit "_") s) ∧
    (∀ ws s, ws ≠ [] → (∀ c ∈ ws, isSpace c = true) → (∀ c ∈ s.head?, isSpace c = false) →
      replaceAll spaceRun (lit "_") (ws ++ s) = 95 :: replaceAll spaceRun (lit "_") s) ∧
    ∀ c ∈ normalizedName w l, isSpace c = false ∧ ¬ (65 ≤ c ∧ c ≤ 90) ∧
      (c = 95 ∨ c ∈ w.toLowerCase l.name) := by
  obtain ⟨h1, h2⟩ := patchManifests_obj w l fs text props hread hparse hmanifest
  refine ⟨h1, h2, ?_, rfl, replaceAll_nil, replaceAll_cons, replaceAll_run, ?_⟩
  · unfold patchedPackage
    rw [getProp_setProp]
  · intro c hc
    have := replaceFrom_chars (w.toLowerCase l.name) 0 (w.toLowerCase l.name) c hc
    refine ⟨this.1, ?_, this.2⟩
    rcases this.2 with rfl | hm
    · omega
    · exact w.toLowerCase_lower l.name c hm

theorem package_name_written_witness :
    normalizedName sampleWorld { sampleLocals with name := lit "My  Cool\tApp" } =
      lit "my_cool_app" ∧
    (patchManifests sampleWorld { sampleLocals with name := lit "My  Cool\tApp" }
        sampleSubstituted).trace.getLast? =
      some (.writeFile (lit "/home/app/package.json")
        (lit "\x7bname:my_cool_app,scripts\x7d")) :=
  ⟨by decide, (package_name_written sampleWorld { sampleLocals with name := lit "My  Cool\tApp" }
    sampleSubstituted (lit "\x7b \"name\": \"app\" \x7d") [(lit "name", .str (lit "app"))]
    rfl rfl rfl).2.1.trans rfl⟩

/-! ## The app manifest -/

/-- C7: when the first `manifest.json` that `glob` finds under the target
parses to an object, the manifest step reads it, sets `short_name` and `name`
to the invocation name as given, writes it back at once, and then warns about
the length exactly when the name has more than 12 units. -/
theorem app_manifest_rewritten (w : World) (l : Locals) (fs : FS) (file : JSString)
    (others : List JSString) (text : JSString) (props : List (JSString × Json))
    (hglob : w.glob (l.target ++ lit "/**/manifest.json") = file :: others)
    (hfile : file ≠ [])
    (hread : fs file = some text)
    (hparse : w.parse text = some (.obj props)) :
    patchManifest w l fs =
      ⟨[.glob (l.target ++ lit "/**/manifest.json"), .readFile file,
          .spinnerText (lit "Updating `name` within `manifest.json` file"),
          .writeFile file (w.stringify (.obj (patchedManifest l props)))] ++
          (if 12 < l.name.length then
            [.stdout (lit "\n"),
              .warn (lit "Your `short_name` should be fewer than 12 characters.")]
          else []),
        .ok ()⟩ ∧
    getProp (lit "name") (patchedManifest l props) = some (.str l.name) ∧
    getProp (lit "short_name") (patchedManifest l props) = some (.str l.name) ∧
    (Effect.warn (lit "Your `short_name` should be fewer than 12 characters.") ∈
      (patchManifest w l fs).trace ↔ 12 < l.name.length) := by
  have hne : lit "name" ≠ lit "short_name" := by decide
  have hrun : patchManifest w l fs =
      ⟨[.glob (l.target ++ lit "/**/manifest.json"), .readFile file,
          .spinnerText (lit "Updating `name` within `manifest.json` file"),
          .writeFile file (w.stringify (.obj (patchedManifest l props)))] ++
          (if 12 < l.name.length then
            [.stdout (lit "\n"),
              .warn (lit "Your `short_name` should be fewer than 12 characters.")]
          else []),
        .ok ()⟩ := by
    have hf : nonEmpty? (some file) = true := by
      cases file with
      | nil => exact absurd rfl hfile
      | cons a b => rfl
    unfold patchManifest
    simp only [hglob, List.head?_cons, hf, if_true, readFile, hread, parseJson, hparse, Step.ret,
      Step.emit, Step.mk_ok_andThen, Json.truthy, rewriteManifest, assign, patchedManifest,
      List.nil_append]
    by_cases hlen : 12 < l.name.length
    · simp [hlen]
    · simp [hlen]
  refine ⟨hrun, ?_, ?_, ?_⟩
  · unfold patchedManifest
    rw [getProp_setProp]
  · unfold patchedManifest
    rw [getProp_setProp_ne _ _ _ _ hne, getProp_setProp]
  · rw [hrun]
    by_cases hlen : 12 < l.name.length
    · simp [hlen]
    · simp [hlen]

theorem app_manifest_rewritten_witness :
    (lit "a-thirteen-ch").length = 13 ∧
    (Effect.warn (lit "Your `short_name` should be fewer than 12 characters.") ∈
      (patchManifest sampleWorld { sampleLocals with name := lit "a-thirteen-ch" }
        sampleSubstituted).trace) ∧
    (lit "a-twelve-chr").length = 12 ∧
    (Effect.warn (lit "Your `short_name` should be fewer than 12 characters.") ∉
      (patchManifest sampleWorld { sampleLocals with name := lit "a-twelve-chr" }
        sampleSubstituted).trace) :=
  ⟨by decide,
    (app_manifest_rewritten sampleWorld { sampleLocals with name := lit "a-thirteen-ch" }
      sampleSubstituted (lit "/home/app/src/manifest.json") [] sampleManifestText
      [(lit "short_name", .str (lit "\x7b\x7bname\x7d\x7d"))] rfl (by decide) rfl rfl).2.2.2.mpr
      (by decide),
    by decide,
    fun h => absurd
      ((app_manifest_rewritten sampleWorld { sampleLocals with name := lit "a-twelve-chr" }
        sampleSubstituted (lit "/home/app/src/manifest.json") [] sampleManifestText
        [(lit "short_name", .str (lit "\x7b\x7bname\x7d\x7d"))] rfl (by decide) rfl rfl).2.2.2.mp h)
      (by decide)⟩

end create
